import Mathlib

/-!
Verification development for the `hab-client` library (`src/lib/Hab.js`).

The library's `exec` method marshals a heterogeneous argument list
(strings, numbers, option maps) into a command-line argument vector and a
set of execution options, then runs an external binary under one of three
strategies.  We embed the marshalling and result-shaping logic shallowly:
JavaScript values are stratified to the depth the library actually
manipulates (an argument is a primitive or a map whose values are
primitives or one further level of map), machine behaviour such as
process spawning is modelled by explicit state passing, and each JS
function becomes a total executable Lean function.
-/

set_option autoImplicit false

deriving instance DecidableEq for Except

/-- Primitive JavaScript values occurring in calls to `exec`. -/
inductive JSPrim where
  | str (s : String)
  | num (n : Int)
  | bool (b : Bool)
  | null
  | undefined
  deriving DecidableEq, Repr

/-- A JavaScript value one level up: a primitive or an object whose own
values are primitives (the depth used for `$env` / `$options` payloads and
for flag values). -/
inductive JSValue where
  | prim (p : JSPrim)
  | obj1 (fields : List (String × JSPrim))
  deriving DecidableEq, Repr

/-- An element of the variadic argument list of `exec`: a primitive or an
option map whose values are `JSValue`s. -/
inductive JSArg where
  | prim (p : JSPrim)
  | obj (m : List (String × JSValue))
  deriving DecidableEq, Repr

/-- JS objects are modelled as insertion-ordered association lists with
unique keys. -/
abbrev JSMap := List (String × JSValue)

/-- JavaScript truthiness of a primitive. -/
def primTruthy : JSPrim → Bool
  | .str s => s != ""
  | .num n => n != 0
  | .bool b => b
  | .null => false
  | .undefined => false

/-- JavaScript truthiness of a `JSValue` (objects are always truthy). -/
def truthy : JSValue → Bool
  | .prim p => primTruthy p
  | .obj1 _ => true

/-- JavaScript truthiness of an argument-list element. -/
def argTruthy : JSArg → Bool
  | .prim p => primTruthy p
  | .obj _ => true

/-- Property lookup `m[k]` (JS objects have unique keys, so the first
match is the only one). -/
def getKey : JSMap → String → Option JSValue
  | [], _ => none
  | p :: rest, k => if p.1 == k then some p.2 else getKey rest k

/-- The JS `k in m` test. -/
def hasKey (m : JSMap) (k : String) : Bool :=
  (getKey m k).isSome

/-- Property assignment `m[k] = v`: updates the value in place when the key
exists (keeping its position), otherwise appends it. -/
def setKey : JSMap → String → JSValue → JSMap
  | [], k, v => [(k, v)]
  | p :: rest, k, v => if p.1 == k then (k, v) :: rest else p :: setKey rest k v

/-- The JS `delete m[k]` operation (keys are unique, so removing every
match removes the one property). -/
def deleteKey : JSMap → String → JSMap
  | [], _ => []
  | p :: rest, k => if p.1 == k then deleteKey rest k else p :: deleteKey rest k

/-- Entries visited by a JS `for (key in v)` loop: an object yields its
fields, a string yields index/character pairs, anything else nothing. -/
def forInEntries : JSValue → List (String × JSPrim)
  | .obj1 fields => fields
  | .prim (.str s) => s.toList.enum.map (fun q => (toString q.1, JSPrim.str (String.mk [q.2])))
  | .prim _ => []

/-- The mutable local state built up by `exec` while scanning its
arguments (`Hab.js` lines 116-121): the subcommand, the argument vector,
the environment overlay and the execution-option bag. -/
structure ExecState where
  command : Option String
  commandArgs : List JSValue
  commandEnv : JSMap
  execOptions : JSMap
  deriving DecidableEq, Repr

/-- Initial state of `exec`: no command, no arguments, and an option bag
holding only the 1 MB `maxBuffer` (lines 116-121). -/
def initExecState : ExecState :=
  { command := none
    commandArgs := []
    commandEnv := []
    execOptions := [("maxBuffer", JSValue.prim (.num 1048576))] }

/-- Truthiness of the `command` local (`let command;` starts `undefined`;
only strings are ever assigned to it). -/
def commandSet : Option String → Bool
  | none => false
  | some s => s != ""

/-- Lines 141-144: extract `$nullOnError` into the options and delete it
from the caller's map. -/
def stepNullOnError : ExecState × JSMap → ExecState × JSMap
  | (st, m) =>
    match getKey m "$nullOnError" with
    | some v => ({ st with execOptions := setKey st.execOptions "nullOnError" v },
                 deleteKey m "$nullOnError")
    | none => (st, m)

/-- Lines 146-149: extract `$spawn`. -/
def stepSpawn : ExecState × JSMap → ExecState × JSMap
  | (st, m) =>
    match getKey m "$spawn" with
    | some v => ({ st with execOptions := setKey st.execOptions "spawn" v },
                 deleteKey m "$spawn")
    | none => (st, m)

/-- Lines 151-154: extract `$shell`. -/
def stepShell : ExecState × JSMap → ExecState × JSMap
  | (st, m) =>
    match getKey m "$shell" with
    | some v => ({ st with execOptions := setKey st.execOptions "shell" v },
                 deleteKey m "$shell")
    | none => (st, m)

/-- Lines 156-161: merge the `$env` payload key-by-key into the command
environment, then delete the directive. -/
def stepEnv : ExecState × JSMap → ExecState × JSMap
  | (st, m) =>
    match getKey m "$env" with
    | some v => ({ st with commandEnv :=
                    (forInEntries v).foldl (fun e q => setKey e q.1 (JSValue.prim q.2)) st.commandEnv },
                 deleteKey m "$env")
    | none => (st, m)

/-- Lines 163-166: extract `$preserveEnv`. -/
def stepPreserveEnv : ExecState × JSMap → ExecState × JSMap
  | (st, m) =>
    match getKey m "$preserveEnv" with
    | some v => ({ st with execOptions := setKey st.execOptions "preserveEnv" v },
                 deleteKey m "$preserveEnv")
    | none => (st, m)

/-- Lines 168-172: merge the `$options` payload key-by-key into the
execution options.  The source performs no `delete` here, so the key stays
in the caller's map. -/
def stepOptions : ExecState × JSMap → ExecState × JSMap
  | (st, m) =>
    match getKey m "$options" with
    | some v => ({ st with execOptions :=
                    (forInEntries v).foldl (fun e q => setKey e q.1 (JSValue.prim q.2)) st.execOptions },
                 m)
    | none => (st, m)

/-- Lines 174-179: record `Boolean($passthrough)` and, when truthy, force
the spawn strategy; then delete the directive. -/
def stepPassthrough : ExecState × JSMap → ExecState × JSMap
  | (st, m) =>
    match getKey m "$passthrough" with
    | some v =>
      let st1 := { st with execOptions := setKey st.execOptions "passthrough" (JSValue.prim (.bool (truthy v))) }
      let st2 := if truthy v then
                   { st1 with execOptions := setKey st1.execOptions "spawn" (JSValue.prim (.bool true)) }
                 else st1
      (st2, deleteKey m "$passthrough")
    | none => (st, m)

/-- Lines 181-184: record `Boolean($wait)` and delete the directive. -/
def stepWait : ExecState × JSMap → ExecState × JSMap
  | (st, m) =>
    match getKey m "$wait" with
    | some v => ({ st with execOptions := setKey st.execOptions "wait" (JSValue.prim (.bool (truthy v))) },
                 deleteKey m "$wait")
    | none => (st, m)

/-- Lines 188-204: convert the keys remaining in the map into command
flags.  A 1-character key gets a single dash, any other key two dashes; a
strict `true` emits the bare flag, a strict `false` nothing, and any other
value follows the flag as a separate argument. -/
def flagArgs : JSMap → List JSValue
  | [] => []
  | (key, value) :: rest =>
    (if key.length == 1 then
      (if value == JSValue.prim (.bool true) then [JSValue.prim (.str ("-" ++ key))]
       else if value == JSValue.prim (.bool false) then []
       else [JSValue.prim (.str ("-" ++ key)), value])
     else
      (if value == JSValue.prim (.bool true) then [JSValue.prim (.str ("--" ++ key))]
       else if value == JSValue.prim (.bool false) then []
       else [JSValue.prim (.str ("--" ++ key)), value]))
    ++ flagArgs rest

/-- Lines 192-204 as used inside the scan: append the flag emissions to
the accumulated argument vector. -/
def stepFlags : ExecState × JSMap → ExecState × JSMap
  | (st, m) => ({ st with commandArgs := st.commandArgs ++ flagArgs m }, m)

/-- The whole `case 'object'` branch of the scan (lines 138-206).  The
second component is the caller's map after the in-place `delete`s. -/
def processObject (st : ExecState) (m : JSMap) : ExecState × JSMap :=
  stepFlags (stepWait (stepPassthrough (stepOptions (stepPreserveEnv
    (stepEnv (stepShell (stepSpawn (stepNullOnError (st, m)))))))))

/-- The argument scan of `exec` (lines 124-210).  `while (arg =
args.shift())` stops at the first falsy element; the first truthy string
becomes the command, later strings and numbers are pushed in string form,
objects are processed for directives and flags, and any other truthy value
throws `'unhandled exec argument'`. -/
def marshalLoop : List JSArg → ExecState → Except String ExecState
  | [], st => .ok st
  | a :: rest, st =>
    if argTruthy a then
      match a with
      | .prim (.str s) =>
        if commandSet st.command then
          -- a string after the command falls through to the number case
          marshalLoop rest { st with commandArgs := st.commandArgs ++ [JSValue.prim (.str s)] }
        else
          -- the first string is the command
          marshalLoop rest { st with command := some s }
      | .prim (.num n) =>
        marshalLoop rest { st with commandArgs := st.commandArgs ++ [JSValue.prim (.str (toString n))] }
      | .obj m => marshalLoop rest (processObject st m).1
      | .prim (.bool _) => .error "unhandled exec argument"
      | .prim .null => .error "unhandled exec argument"      -- unreachable: null is falsy
      | .prim .undefined => .error "unhandled exec argument" -- unreachable: undefined is falsy
    else
      .ok st  -- a falsy element ends the while loop without an error

/-- Marshal a full argument list from the initial state. -/
def marshal (args : List JSArg) : Except String ExecState :=
  marshalLoop args initExecState

/-- Lines 213-216: prefix the argument vector with the command when one
was identified. -/
def finalArgs (st : ExecState) : List JSValue :=
  match st.command with
  | some s => if s != "" then JSValue.prim (.str s) :: st.commandArgs else st.commandArgs
  | none => st.commandArgs

/-- The final argument vector handed to the process executor. -/
def execArgv (args : List JSArg) : Except String (List JSValue) :=
  (marshal args).map finalArgs

/-- Truthiness of an optional property (`undefined` is falsy). -/
def optTruthy : Option JSValue → Bool
  | some v => truthy v
  | none => false

/-- The three execution strategies of lines 230, 283 and 298. -/
inductive Strategy where
  | spawn
  | shell
  | direct
  deriving DecidableEq, Repr

/-- Strategy selection: `if (execOptions.spawn) ... else if
(execOptions.shell) ... else ...`. -/
def chooseStrategy (opts : JSMap) : Strategy :=
  if optTruthy (getKey opts "spawn") then .spawn
  else if optTruthy (getKey opts "shell") then .shell
  else .direct

/-- A JS `Error` object as the capture callbacks see it: some base payload
plus the `stderr` property the code attaches on failure. -/
structure JSError where
  message : String
  stderr : Option String
  deriving DecidableEq, Repr

/-- How a capture-strategy call settles: `resolve` with `null` or a
string, or `reject` with an error object. -/
inductive ExecOutcome where
  | resolved (v : Option String)
  | rejected (e : JSError)
  deriving DecidableEq, Repr

/-- The `child_process.execFile` callback of the direct strategy
(lines 299-312): on error, resolve `null` when `nullOnError` is set,
otherwise attach the captured stderr and reject; on success resolve the
trimmed stdout. -/
def execFileOutcome (opts : JSMap) (error : Option JSError) (stdout stderr : String) : ExecOutcome :=
  match error with
  | some err =>
    if optTruthy (getKey opts "nullOnError") then .resolved none
    else .rejected { err with stderr := some stderr }
  | none => .resolved (some stdout.trim)

/-- The `child_process.exec` callback of the shell strategy
(lines 284-296), identical in shape to the direct one. -/
def shellExecOutcome (opts : JSMap) (error : Option JSError) (stdout stderr : String) : ExecOutcome :=
  match error with
  | some err =>
    if optTruthy (getKey opts "nullOnError") then .resolved none
    else .rejected { err with stderr := some stderr }
  | none => .resolved (some stdout.trim)

/-- Observable state of the handle returned by the spawn strategy
(lines 230-282): the memoized capture promise (identified by an allocation
number), the allocation counter, the recorded exit event, and what was
written to the child's stdin. -/
structure SpawnHandle where
  capturePromise : Option Nat
  nextPromiseId : Nat
  exitCode : Option Int
  stdinData : List String
  stdinClosed : Bool
  deriving DecidableEq, Repr

/-- The handle as `exec` returns it: `let capturePromise;` is undefined
and nothing has been written or recorded yet. -/
def initSpawnHandle : SpawnHandle :=
  { capturePromise := none
    nextPromiseId := 0
    exitCode := none
    stdinData := []
    stdinClosed := false }

/-- `process.captureOutput(input)` (lines 251-276): allocate the capture
promise only when none exists yet, write any truthy input to stdin and
close it, and return the (memoized) promise. -/
def captureOutput (h : SpawnHandle) (input : Option String) : Nat × SpawnHandle :=
  let pid := match h.capturePromise with
    | some p => p
    | none => h.nextPromiseId
  let h1 := match h.capturePromise with
    | some _ => h
    | none => { h with capturePromise := some pid, nextPromiseId := pid + 1 }
  let h2 := match input with
    | some s =>
      if s != "" then { h1 with stdinData := h1.stdinData ++ [s], stdinClosed := true }
      else h1
    | none => h1
  (pid, h2)

/-- The child's `exit` event: resolution or rejection of the pending
promises; it does not touch the memoization field. -/
def recordExit (h : SpawnHandle) (code : Int) : SpawnHandle :=
  { h with exitCode := some code }

/-- Split a string at every occurrence of a separator character, the JS
`s.split(sep)` (used for `/\n/` and `"/"`). -/
def splitCharGo (sep : Char) : List Char → List Char → List String
  | [], acc => [String.mk acc.reverse]
  | c :: rest, acc =>
    if c == sep then String.mk acc.reverse :: splitCharGo sep rest []
    else splitCharGo sep rest (c :: acc)

/-- `s.split(sep)` on a whole string. -/
def splitChar (sep : Char) (s : String) : List String :=
  splitCharGo sep s.toList []

/-- The regex `^hab ([^\/]+)\/(\d+)$` of `getVersion` (line 31): a `hab `
marker, a nonempty slash-free version, one slash, and a nonempty all-digit
build, with nothing after. -/
def parseVersionOutput (s : String) : Option (String × String) :=
  match s.toList with
  | 'h' :: 'a' :: 'b' :: ' ' :: rest =>
    match splitCharGo '/' rest [] with
    | [v, b] =>
      if v != "" && b != "" && b.toList.all Char.isDigit then some (v, b) else none
    | _ => none
  | _ => none

/-- The `this.version` field: `null` before the first query, a string
after a successful parse, `false` after a failure. -/
inductive VersionField where
  | vnull
  | vfalse
  | vstr (s : String)
  deriving DecidableEq, Repr

/-- The version/build cache of a `Hab` instance (lines 19-20). -/
structure VersionCache where
  version : VersionField
  build : VersionField
  deriving DecidableEq, Repr

/-- One call to `getVersion` (lines 27-38), with the result of the
underlying `exec` call supplied as an oracle.  Returns the new cache, the
returned value (`this.version || null`) and whether the binary was
queried.  A failed destructuring (regex mismatch) throws inside the `try`,
so both failure modes set the `false` sentinel. -/
def getVersionStep (st : VersionCache) (execResult : Except Unit String) :
    VersionCache × Option String × Bool :=
  match st.version with
  | .vnull =>
    let st1 := match execResult with
      | .error _ => { st with version := .vfalse }
      | .ok output =>
        match parseVersionOutput output with
        | some (v, b) => { version := VersionField.vstr v, build := VersionField.vstr b }
        | none => { st with version := .vfalse }
    (st1,
     (match st1.version with
      | .vstr s => if s != "" then some s else none
      | _ => none),
     true)
  | .vfalse => (st, none, false)
  | .vstr s => (st, (if s != "" then some s else none), false)

/-- The character class of the JS regex `\s`. -/
def jsIsSpace (c : Char) : Bool :=
  c == ' ' || c == '\t' || c == '\n' || c == '\x0b' || c == '\x0c' || c == '\r' ||
  c == ' ' || c == ' ' || (0x2000 ≤ c.toNat && c.toNat ≤ 0x200A) ||
  c == ' ' || c == ' ' || c == ' ' || c == ' ' ||
  c == '　' || c == '﻿'

/-- Drop a leading whitespace run. -/
def skipWs : List Char → List Char
  | [] => []
  | c :: rest => if jsIsSpace c then skipWs rest else c :: rest

/-- Splitting on the regex `\s{2,}`: a field ends exactly at a maximal
whitespace run of length at least two.  Fuel equals the character count,
so the fallback first branch is never reached. -/
def splitWsGo : Nat → List Char → List Char → List String
  | 0, rest, acc => [String.mk (acc.reverse ++ rest)]
  | _ + 1, [], acc => [String.mk acc.reverse]
  | fuel + 1, c :: rest, acc =>
    if jsIsSpace c then
      match rest with
      | c2 :: _ =>
        if jsIsSpace c2 then String.mk acc.reverse :: splitWsGo fuel (skipWs rest) []
        else splitWsGo fuel rest (c :: acc)
      | [] => [String.mk ((c :: acc).reverse)]
    else splitWsGo fuel rest (c :: acc)

/-- `line.split(/\s{2,}/)` (line 76). -/
def splitWsRun (s : String) : List String :=
  splitWsGo s.toList.length s.toList []

/-- Underscore's `_.object(keys, values)` (line 83): one property per key,
paired with the value at the same index, `undefined` (here `none`) when
the row is shorter than the header. -/
def underscoreObject (keys vals : List String) : List (String × Option String) :=
  keys.enum.map (fun q => (q.2, vals.get? q.1))

/-- The `for (let line of output)` loop of `getSupervisorStatus`
(lines 73-84): the first line becomes the column headers, every later line
is zipped against them into a service record. -/
def statusLoop : Option (List String) → List (List (String × Option String)) →
    List String → List (List (String × Option String))
  | _, services, [] => services
  | none, services, line :: rest =>
    statusLoop (some (splitWsRun line)) services rest
  | some cols, services, line :: rest =>
    statusLoop (some cols) (services ++ [underscoreObject cols (splitWsRun line)]) rest

/-- Result of `getSupervisorStatus`: a list of service records, or the
literal `false` when the invocation failed. -/
inductive StatusResult where
  | services (rows : List (List (String × Option String)))
  | failed
  deriving DecidableEq, Repr

/-- `getSupervisorStatus` (lines 65-90) with the result of
`exec('svc', 'status')` supplied as an oracle: split the output on
newlines, return `[]` when there is a single line, otherwise zip each data
line against the header line; any rejection is caught and becomes
`false`. -/
def getSupervisorStatus (execResult : Except Unit String) : StatusResult :=
  match execResult with
  | .error _ => .failed
  | .ok out =>
    let output := splitChar '\n' out
    if output.length == 1 then .services []
    else .services (statusLoop none [] output)

/-- A positional element: a truthy string or a truthy (nonzero) number. -/
def isPositionalArg : JSArg → Bool
  | .prim (.str s) => s != ""
  | .prim (.num n) => n != 0
  | _ => false

/-- Every element is a truthy string or number. -/
def allPositional (l : List JSArg) : Bool :=
  l.all isPositionalArg

/-- A truthy element the scan handles without an error: a nonempty
string, a nonzero number, or an object. -/
def scannableArg : JSArg → Bool
  | .prim (.str s) => s != ""
  | .prim (.num n) => n != 0
  | .obj _ => true
  | _ => false

/-- Every element is scannable. -/
def allScannable (l : List JSArg) : Bool :=
  l.all scannableArg

/-- The first string in an argument list (the one that becomes the
command). -/
def firstStringArg : List JSArg → Option String
  | [] => none
  | .prim (.str s) :: _ => some s
  | _ :: rest => firstStringArg rest

/-- An argument list with its first string element removed. -/
def removeFirstString : List JSArg → List JSArg
  | [] => []
  | .prim (.str _) :: rest => rest
  | a :: rest => a :: removeFirstString rest

/-- The string form in which a positional element is pushed onto the
argument vector (`arg.toString()`). -/
def toStrForm : JSArg → JSValue
  | .prim (.str s) => JSValue.prim (.str s)
  | .prim (.num n) => JSValue.prim (.str (toString n))
  | _ => JSValue.prim .undefined  -- unused: only strings and numbers are positional

/-- The seven directive keys the source `delete`s from the caller's map
(`$options` is consumed but not deleted). -/
def deletedDirectiveKeys : List String :=
  ["$nullOnError", "$spawn", "$shell", "$env", "$preserveEnv", "$passthrough", "$wait"]

/-- All eight directive keys recognized by the marshaller. -/
def directiveKeys : List String :=
  "$options" :: deletedDirectiveKeys

/-- A map containing no directive keys at all. -/
def noDirectiveKeys (m : JSMap) : Bool :=
  m.all (fun p => !(directiveKeys.contains p.1))

/-- Flag emission as the specification words it: length-1 keys get a
single dash and other keys a double dash; `true` emits the bare flag,
`false` nothing, and any other value follows the flag as the next
argument.  (Spec-side reference definition, compared against `flagArgs`.) -/
def flagSpecEmit (p : String × JSValue) : List JSValue :=
  let dash := if p.1.length = 1 then "-" else "--"
  if p.2 = JSValue.prim (.bool true) then [JSValue.prim (.str (dash ++ p.1))]
  else if p.2 = JSValue.prim (.bool false) then []
  else [JSValue.prim (.str (dash ++ p.1)), p.2]

/-- A map that cannot clear the spawn flag once set: it has no `$spawn`
key and its `$options` payload (if any) carries no `spawn` entry. -/
def mapNoSpawn (m : JSMap) : Bool :=
  !(hasKey m "$spawn") &&
  (match getKey m "$options" with
   | some v => (forInEntries v).all (fun q => q.1 != "spawn")
   | none => true)

/-- An argument that cannot clear the spawn flag once set. -/
def noSpawnArg : JSArg → Bool
  | .obj m => mapNoSpawn m
  | _ => true

/-- An argument that is neither a string, a number, nor an object (the
kinds `exec`'s switch does not handle). -/
def unsupportedArg : JSArg → Bool
  | .prim (.bool _) => true
  | .prim .null => true
  | .prim .undefined => true
  | _ => false

/-- Truthiness of the `spawn` execution option in a marshalling state. -/
def spawnOn (st : ExecState) : Bool :=
  optTruthy (getKey st.execOptions "spawn")


theorem getKey_setKey_ne (m : JSMap) (k k2 : String) (v : JSValue) (h : k2 ≠ k) :
    getKey (setKey m k v) k2 = getKey m k2 := by
  have h2 : (k == k2) = false := by simp [Ne.symm h]
  have h3 : (k2 == k) = false := by simp [h]
  induction m with
  | nil => simp [setKey, getKey, h2]
  | cons p rest ih =>
    by_cases hp : p.1 = k
    · simp [setKey, getKey, hp, h2, h3]
    · by_cases hp2 : p.1 = k2 <;> simp [setKey, getKey, hp, hp2, h2, h3, ih]

theorem getKey_setKey_self (m : JSMap) (k : String) (v : JSValue) :
    getKey (setKey m k v) k = some v := by
  induction m with
  | nil => simp [setKey, getKey]
  | cons p rest ih =>
    by_cases hp : p.1 = k <;> simp [setKey, getKey, hp, ih]

theorem getKey_deleteKey_ne (m : JSMap) (k k2 : String) (h : k2 ≠ k) :
    getKey (deleteKey m k) k2 = getKey m k2 := by
  have h3 : (k2 == k) = false := by simp [h]
  have h4 : ¬(k = k2) := Ne.symm h
  induction m with
  | nil => simp [deleteKey, getKey]
  | cons p rest ih =>
    by_cases hp : p.1 = k
    · have hp2 : p.1 ≠ k2 := by rw [hp]; exact Ne.symm h
      simp [deleteKey, getKey, hp, hp2, h4, ih]
    · by_cases hp2 : p.1 = k2 <;> simp [deleteKey, getKey, hp, hp2, h3, h4, ih]

theorem getKey_eq_none_of_all_ne (m : JSMap) (k : String)
    (h : m.all (fun p => p.1 != k) = true) : getKey m k = none := by
  induction m with
  | nil => simp [getKey]
  | cons p rest ih =>
    simp only [List.all_cons, Bool.and_eq_true, bne_iff_ne, ne_eq] at h
    simp [getKey, h.1, ih h.2]

theorem deleteKey_eq_self (m : JSMap) (k : String) (h : getKey m k = none) :
    deleteKey m k = m := by
  induction m with
  | nil => simp [deleteKey]
  | cons p rest ih =>
    by_cases hp : p.1 = k
    · simp [getKey, hp] at h
    · simp only [getKey, beq_iff_eq, hp, if_false] at h
      simp [deleteKey, hp, ih h]

theorem getKey_foldl_setKey_ne (entries : List (String × JSPrim)) (e : JSMap) (k : String)
    (h : entries.all (fun q => q.1 != k) = true) :
    getKey (entries.foldl (fun acc q => setKey acc q.1 (JSValue.prim q.2)) e) k = getKey e k := by
  induction entries generalizing e with
  | nil => rfl
  | cons q rest ih =>
    simp only [List.all_cons, Bool.and_eq_true, bne_iff_ne, ne_eq] at h
    simp only [List.foldl_cons]
    rw [ih _ h.2, getKey_setKey_ne _ _ _ _ (Ne.symm h.1)]

theorem marshalLoop_append (pre xs : List JSArg) (st : ExecState)
    (h : allScannable pre = true) :
    ∃ st2, marshalLoop pre st = .ok st2 ∧ marshalLoop (pre ++ xs) st = marshalLoop xs st2 := by
  induction pre generalizing st with
  | nil => exact ⟨st, rfl, rfl⟩
  | cons a rest ih =>
    simp only [allScannable, List.all_cons, Bool.and_eq_true] at h
    cases a with
    | prim p =>
      cases p with
      | str s =>
        have hs : (s != "") = true := h.1
        by_cases hc : commandSet st.command = true
        · simpa [marshalLoop, argTruthy, primTruthy, hs, hc] using
            ih { st with commandArgs := st.commandArgs ++ [JSValue.prim (.str s)] } h.2
        · simp only [Bool.not_eq_true] at hc
          simpa [marshalLoop, argTruthy, primTruthy, hs, hc] using
            ih { st with command := some s } h.2
      | num n =>
        have hn : (n != 0) = true := h.1
        simpa [marshalLoop, argTruthy, primTruthy, hn] using
          ih { st with commandArgs := st.commandArgs ++ [JSValue.prim (.str (toString n))] } h.2
      | bool b => simp [scannableArg] at h
      | null => simp [scannableArg] at h
      | undefined => simp [scannableArg] at h
    | obj m =>
      simpa [marshalLoop, argTruthy] using ih (processObject st m).1 h.2

theorem marshalLoop_positional_cmdset (args : List JSArg) (st : ExecState)
    (hp : allPositional args = true) (hc : commandSet st.command = true) :
    marshalLoop args st = .ok { st with commandArgs := st.commandArgs ++ args.map toStrForm } := by
  induction args generalizing st with
  | nil => simp [marshalLoop]
  | cons a rest ih =>
    simp only [allPositional, List.all_cons, Bool.and_eq_true] at hp
    cases a with
    | prim p =>
      cases p with
      | str s =>
        have hs : (s != "") = true := hp.1
        rw [show (rest.all isPositionalArg) = allPositional rest from rfl] at hp
        have := ih { st with commandArgs := st.commandArgs ++ [JSValue.prim (.str s)] } hp.2 hc
        simp only [marshalLoop, argTruthy, primTruthy, hs, if_true, hc, this]
        simp [toStrForm]
      | num n =>
        have hn : (n != 0) = true := hp.1
        have := ih { st with commandArgs := st.commandArgs ++ [JSValue.prim (.str (toString n))] } hp.2 hc
        simp only [marshalLoop, argTruthy, primTruthy, hn, if_true, this]
        simp [toStrForm]
      | bool b => simp [isPositionalArg] at hp
      | null => simp [isPositionalArg] at hp
      | undefined => simp [isPositionalArg] at hp
    | obj m => simp [isPositionalArg] at hp

theorem firstStringArg_nonempty (args : List JSArg) (s : String)
    (hp : allPositional args = true) (h : firstStringArg args = some s) : (s != "") = true := by
  induction args with
  | nil => simp [firstStringArg] at h
  | cons a rest ih =>
    simp only [allPositional, List.all_cons, Bool.and_eq_true] at hp
    cases a with
    | prim p =>
      cases p with
      | str t =>
        simp only [firstStringArg, Option.some_inj] at h
        rw [← h]; exact hp.1
      | num n => exact ih hp.2 h
      | bool b => simp [isPositionalArg] at hp
      | null => simp [isPositionalArg] at hp
      | undefined => simp [isPositionalArg] at hp
    | obj m => simp [isPositionalArg] at hp

theorem marshalLoop_positional_nocmd (args : List JSArg) (st : ExecState)
    (hp : allPositional args = true) (hc : commandSet st.command = false) :
    marshalLoop args st = .ok { st with
      command := (match firstStringArg args with
                  | some s => some s
                  | none => st.command)
      commandArgs := st.commandArgs ++ (removeFirstString args).map toStrForm } := by
  induction args generalizing st with
  | nil => simp [marshalLoop, firstStringArg, removeFirstString]
  | cons a rest ih =>
    simp only [allPositional, List.all_cons, Bool.and_eq_true] at hp
    cases a with
    | prim p =>
      cases p with
      | str s =>
        have hs : (s != "") = true := hp.1
        have hc2 : commandSet (some s) = true := hs
        have := marshalLoop_positional_cmdset rest { st with command := some s } hp.2 hc2
        simp only [marshalLoop, argTruthy, primTruthy, hs, if_true, hc, Bool.false_eq_true,
      if_false, this, firstStringArg, removeFirstString]
      | num n =>
        have hn : (n != 0) = true := hp.1
        have := ih { st with commandArgs := st.commandArgs ++ [JSValue.prim (.str (toString n))] } hp.2 hc
        simp only [marshalLoop, argTruthy, primTruthy, hn, if_true, this, firstStringArg,
      removeFirstString]
        simp [toStrForm]
      | bool b => simp [isPositionalArg] at hp
      | null => simp [isPositionalArg] at hp
      | undefined => simp [isPositionalArg] at hp
    | obj m => simp [isPositionalArg] at hp

/-- C1 counterexample: in `exec(5, 'foo')` the first string-or-number
element is the number `5`, yet `'foo'` becomes the subcommand and the
final vector is `['foo', '5']`, not `['5', 'foo']`; and in
`exec('a', 0, 'b')` the number `0` and the string `'b'` are never appended
because the scan stops at the falsy `0`. -/
theorem hab_c1_counterexample :
    ((marshal [JSArg.prim (.num 5), JSArg.prim (.str "foo")]).map
        (fun st => (st.command, finalArgs st)) =
      .ok (some "foo", [JSValue.prim (.str "foo"), JSValue.prim (.str "5")]))
    ∧ ¬ ((marshal [JSArg.prim (.num 5), JSArg.prim (.str "foo")]).map
          (fun st => st.command) = .ok (some "5"))
    ∧ (execArgv [JSArg.prim (.str "a"), JSArg.prim (.num 0), JSArg.prim (.str "b")] =
      .ok [JSValue.prim (.str "a")])
    ∧ ¬ (execArgv [JSArg.prim (.str "a"), JSArg.prim (.num 0), JSArg.prim (.str "b")] =
      .ok [JSValue.prim (.str "a"), JSValue.prim (.str "0"), JSValue.prim (.str "b")]) := by
  decide

/-- C1 (amended): among truthy arguments the first string (never a
number) becomes the subcommand; every other truthy string or number is
appended in encounter order as its string form; the scan stops silently
at the first falsy argument; when a command was identified it is
prepended as the first element of the final argument vector. -/
theorem hab_c1_amended (args pre post : List JSArg) (x : JSArg)
    (hargs : allPositional args = true) (hpre : allScannable pre = true)
    (hx : argTruthy x = false) :
    execArgv args = .ok ((match firstStringArg args with
       | some s => [JSValue.prim (.str s)]
       | none => []) ++ (removeFirstString args).map toStrForm)
    ∧ marshal (pre ++ x :: post) = marshal pre := by
  constructor
  · have h0 : commandSet initExecState.command = false := rfl
    have hm := marshalLoop_positional_nocmd args initExecState hargs h0
    unfold execArgv marshal
    rw [hm]
    cases hfs : firstStringArg args with
    | none => simp [finalArgs, initExecState, Except.map]
    | some s =>
      have hs := firstStringArg_nonempty args s hargs hfs
      simp [finalArgs, initExecState, Except.map, hs]
  · obtain ⟨st2, h1, h2⟩ := marshalLoop_append pre (x :: post) initExecState hpre
    unfold marshal
    calc marshalLoop (pre ++ x :: post) initExecState
        = marshalLoop (x :: post) st2 := h2
      _ = .ok st2 := by simp [marshalLoop, hx]
      _ = marshalLoop pre initExecState := h1.symm

/-- C1 witness: `exec(5, 'a', 7)` yields the vector `['a', '5', '7']`,
and in `exec('c', 0, 'z')` the scan stops at `0`. -/
theorem hab_c1_witness :
    execArgv [JSArg.prim (.num 5), JSArg.prim (.str "a"), JSArg.prim (.num 7)] =
      .ok [JSValue.prim (.str "a"), JSValue.prim (.str "5"), JSValue.prim (.str "7")]
    ∧ marshal [JSArg.prim (.str "c"), JSArg.prim (.num 0), JSArg.prim (.str "z")] =
      marshal [JSArg.prim (.str "c")] := by
  have h := hab_c1_amended
    [JSArg.prim (.num 5), JSArg.prim (.str "a"), JSArg.prim (.num 7)]
    [JSArg.prim (.str "c")] [JSArg.prim (.str "z")] (JSArg.prim (.num 0))
    (by decide) (by decide) (by decide)
  exact ⟨h.1, h.2⟩

/-- C5 counterexample: `exec(false)` passes a boolean, yet no
unsupported-argument error is raised; the scan ends silently (the loop
condition is falsy) and execution proceeds against the binary. -/
theorem hab_c5_counterexample :
    marshal [JSArg.prim (.bool false)] = .ok initExecState
    ∧ ¬ (marshal [JSArg.prim (.bool false)] = .error "unhandled exec argument") := by
  decide

/-- C5 (amended): a truthy argument that is neither a string, a number
nor an object makes `exec` fail immediately with the
unsupported-argument-type error, before the binary is invoked; a falsy
such argument instead terminates the argument scan silently, without an
error. -/
theorem hab_c5_amended (pre post : List JSArg) (x : JSArg)
    (hpre : allScannable pre = true) (hx : unsupportedArg x = true) :
    (argTruthy x = true → marshal (pre ++ x :: post) = .error "unhandled exec argument")
    ∧ (argTruthy x = false → marshal (pre ++ x :: post) = marshal pre) := by
  obtain ⟨st2, h1, h2⟩ := marshalLoop_append pre (x :: post) initExecState hpre
  constructor
  · intro ht
    rw [show marshal (pre ++ x :: post) = marshalLoop (pre ++ x :: post) initExecState from rfl, h2]
    cases x with
    | prim p =>
      cases p with
      | bool b =>
        cases b with
        | true => simp [marshalLoop, argTruthy, primTruthy]
        | false => simp [argTruthy, primTruthy] at ht
      | str s => simp [unsupportedArg] at hx
      | num n => simp [unsupportedArg] at hx
      | null => simp [argTruthy, primTruthy] at ht
      | undefined => simp [argTruthy, primTruthy] at ht
    | obj m => simp [unsupportedArg] at hx
  · intro hf
    calc marshalLoop (pre ++ x :: post) initExecState
        = marshalLoop (x :: post) st2 := h2
      _ = .ok st2 := by simp [marshalLoop, hf]
      _ = marshalLoop pre initExecState := h1.symm

/-- C5 witness: `exec('pkg', true)` errors immediately, while
`exec('pkg', null)` stops the scan silently. -/
theorem hab_c5_witness :
    marshal [JSArg.prim (.str "pkg"), JSArg.prim (.bool true)] = .error "unhandled exec argument"
    ∧ marshal [JSArg.prim (.str "pkg"), JSArg.prim .null] = marshal [JSArg.prim (.str "pkg")] := by
  have h1 := hab_c5_amended [JSArg.prim (.str "pkg")] [] (JSArg.prim (.bool true))
    (by decide) (by decide)
  have h2 := hab_c5_amended [JSArg.prim (.str "pkg")] [] (JSArg.prim .null)
    (by decide) (by decide)
  exact ⟨h1.1 (by decide), h2.2 (by decide)⟩

theorem flagArgs_eq_spec (m : JSMap) : flagArgs m = m.flatMap flagSpecEmit := by
  induction m with
  | nil => rfl
  | cons p rest ih =>
    obtain ⟨key, value⟩ := p
    by_cases hv1 : value = JSValue.prim (.bool true)
    · by_cases h1 : key.length = 1 <;> simp [flagArgs, flagSpecEmit, h1, hv1, ih]
    · by_cases hv2 : value = JSValue.prim (.bool false)
      · by_cases h1 : key.length = 1 <;> simp [flagArgs, flagSpecEmit, h1, hv1, hv2, ih]
      · by_cases h1 : key.length = 1 <;> simp [flagArgs, flagSpecEmit, h1, hv1, hv2, ih]

theorem getKey_none_of_noDirective (m : JSMap) (h : noDirectiveKeys m = true)
    (k : String) (hk : directiveKeys.contains k = true) : getKey m k = none := by
  apply getKey_eq_none_of_all_ne
  simp only [noDirectiveKeys, List.all_eq_true] at h
  simp only [List.all_eq_true]
  intro p hp
  have hne := h p hp
  simp only [bne_iff_ne, ne_eq]
  intro he
  rw [he, hk] at hne
  simp at hne

theorem processObject_noDirectives (st : ExecState) (m : JSMap) (h : noDirectiveKeys m = true) :
    processObject st m = ({ st with commandArgs := st.commandArgs ++ flagArgs m }, m) := by
  have h1 : getKey m "$nullOnError" = none := getKey_none_of_noDirective m h _ (by decide)
  have h2 : getKey m "$spawn" = none := getKey_none_of_noDirective m h _ (by decide)
  have h3 : getKey m "$shell" = none := getKey_none_of_noDirective m h _ (by decide)
  have h4 : getKey m "$env" = none := getKey_none_of_noDirective m h _ (by decide)
  have h5 : getKey m "$preserveEnv" = none := getKey_none_of_noDirective m h _ (by decide)
  have h6 : getKey m "$options" = none := getKey_none_of_noDirective m h _ (by decide)
  have h7 : getKey m "$passthrough" = none := getKey_none_of_noDirective m h _ (by decide)
  have h8 : getKey m "$wait" = none := getKey_none_of_noDirective m h _ (by decide)
  simp [processObject, stepNullOnError, stepSpawn, stepShell, stepEnv, stepPreserveEnv,
  stepOptions, stepPassthrough, stepWait, stepFlags, h1, h2, h3, h4, h5, h6, h7, h8]

/-- C3 (confirmed): in an option map without directive keys, every key of
length 1 is emitted with a single dash and every other key with a double
dash; `true` emits the flag alone, `false` emits nothing, and any other
value follows the flag as the next separate argument (`flagSpecEmit`
states the specification's wording). -/
theorem hab_c3_flag_emission (m : JSMap) (h : noDirectiveKeys m = true) :
    execArgv [JSArg.obj m] = .ok (m.flatMap flagSpecEmit) := by
  have hp := processObject_noDirectives initExecState m h
  have hm : marshal [JSArg.obj m] = .ok (processObject initExecState m).1 := by
    simp [marshal, marshalLoop, argTruthy]
  rw [execArgv, hm, hp]
  simp [Except.map, finalArgs, initExecState, flagArgs_eq_spec]

/-- C3 witness: the map `{v: true, color: 'auto', q: false, x: 3}` maps
to the vector `['-v', '--color', 'auto', '-x', 3]`. -/
theorem hab_c3_witness :
    noDirectiveKeys [("v", JSValue.prim (.bool true)), ("color", JSValue.prim (.str "auto")),
      ("q", JSValue.prim (.bool false)), ("x", JSValue.prim (.num 3))] = true
    ∧ execArgv [JSArg.obj [("v", JSValue.prim (.bool true)), ("color", JSValue.prim (.str "auto")),
        ("q", JSValue.prim (.bool false)), ("x", JSValue.prim (.num 3))]] =
      .ok [JSValue.prim (.str "-v"), JSValue.prim (.str "--color"), JSValue.prim (.str "auto"),
        JSValue.prim (.str "-x"), JSValue.prim (.num 3)] :=
  ⟨by decide, (hab_c3_flag_emission _ (by decide)).trans (by decide)⟩

/-- C2 (code bug): with every directive present, the seven deleted
directives leave no trace in the final vector, but `$options` — consumed
yet never deleted (line 168-172 has no `delete`) — is emitted as the
literal flag `--$options` followed by its payload object. -/
theorem hab_c2_options_flag_leak :
    execArgv [JSArg.obj
      [("$nullOnError", JSValue.prim (.bool true)),
       ("$spawn", JSValue.prim (.bool false)),
       ("$shell", JSValue.prim (.bool false)),
       ("$env", JSValue.obj1 [("FOO", .str "bar")]),
       ("$preserveEnv", JSValue.prim (.bool false)),
       ("$options", JSValue.obj1 [("maxBuffer", .num 2048)]),
       ("$passthrough", JSValue.prim (.bool false)),
       ("$wait", JSValue.prim (.bool false))]] =
    .ok [JSValue.prim (.str "--$options"), JSValue.obj1 [("maxBuffer", .num 2048)]] := by
  decide

/-- C4 (confirmed): for both the direct (`execFile`) and the shell
(`exec`) capture strategies, success resolves with the trimmed stdout;
failure resolves `null` when the null-on-error directive is truthy and
otherwise rejects with the error object carrying the captured stderr;
and a call marshalled with `{$nullOnError: true}` resolves `null` on a
failed execution. -/
theorem hab_c4_capture_outcomes (opts : JSMap) (e : JSError) (stdout stderr : String) :
    (execFileOutcome opts none stdout stderr = .resolved (some stdout.trim)
      ∧ shellExecOutcome opts none stdout stderr = .resolved (some stdout.trim))
    ∧ (execFileOutcome opts (some e) stdout stderr =
        (if optTruthy (getKey opts "nullOnError") then ExecOutcome.resolved none
         else ExecOutcome.rejected { e with stderr := some stderr })
      ∧ shellExecOutcome opts (some e) stdout stderr =
        (if optTruthy (getKey opts "nullOnError") then ExecOutcome.resolved none
         else ExecOutcome.rejected { e with stderr := some stderr }))
    ∧ (∀ st, marshal [JSArg.obj [("$nullOnError", JSValue.prim (.bool true))]] = .ok st →
        execFileOutcome st.execOptions (some e) stdout stderr = .resolved none
        ∧ shellExecOutcome st.execOptions (some e) stdout stderr = .resolved none) := by
  refine ⟨⟨rfl, rfl⟩, ⟨rfl, rfl⟩, ?_⟩
  intro st h
  have hm : marshal [JSArg.obj [("$nullOnError", JSValue.prim (.bool true))]] =
      .ok { command := none, commandArgs := [], commandEnv := [],
            execOptions := [("maxBuffer", JSValue.prim (.num 1048576)),
                            ("nullOnError", JSValue.prim (.bool true))] } := by decide
  rw [hm] at h
  cases Except.ok.inj h
  have hg : getKey [("maxBuffer", JSValue.prim (.num 1048576)),
      ("nullOnError", JSValue.prim (.bool true))] "nullOnError" =
      some (JSValue.prim (.bool true)) := by decide
  constructor <;> simp [execFileOutcome, shellExecOutcome, hg, optTruthy, truthy, primTruthy]

/-- C4 witness: the hypotheses of the capture-outcome theorem are
discharged at the marshalled `{$nullOnError: true}` options. -/
theorem hab_c4_witness :
    execFileOutcome [("maxBuffer", JSValue.prim (.num 1048576)),
        ("nullOnError", JSValue.prim (.bool true))]
      (some { message := "exit 1", stderr := none }) "partial" "boom" = .resolved none
    ∧ shellExecOutcome [("maxBuffer", JSValue.prim (.num 1048576)),
        ("nullOnError", JSValue.prim (.bool true))]
      (some { message := "exit 1", stderr := none }) "partial" "boom" = .resolved none :=
  (hab_c4_capture_outcomes [("maxBuffer", JSValue.prim (.num 1048576)),
      ("nullOnError", JSValue.prim (.bool true))]
    { message := "exit 1", stderr := none } "partial" "boom").2.2 _ rfl

theorem stepNullOnError_spawnOn (q : ExecState × JSMap) :
    spawnOn (stepNullOnError q).1 = spawnOn q.1 := by
  obtain ⟨st, m⟩ := q
  cases hg : getKey m "$nullOnError" with
  | none => simp [stepNullOnError, hg]
  | some v =>
    simp only [stepNullOnError, hg, spawnOn]
    rw [getKey_setKey_ne _ _ _ _ (by decide)]

theorem stepShell_spawnOn (q : ExecState × JSMap) :
    spawnOn (stepShell q).1 = spawnOn q.1 := by
  obtain ⟨st, m⟩ := q
  cases hg : getKey m "$shell" with
  | none => simp [stepShell, hg]
  | some v =>
    simp only [stepShell, hg, spawnOn]
    rw [getKey_setKey_ne _ _ _ _ (by decide)]

theorem stepEnv_spawnOn (q : ExecState × JSMap) :
    spawnOn (stepEnv q).1 = spawnOn q.1 := by
  obtain ⟨st, m⟩ := q
  cases hg : getKey m "$env" with
  | none => simp [stepEnv, hg]
  | some v => simp [stepEnv, hg, spawnOn]

theorem stepPreserveEnv_spawnOn (q : ExecState × JSMap) :
    spawnOn (stepPreserveEnv q).1 = spawnOn q.1 := by
  obtain ⟨st, m⟩ := q
  cases hg : getKey m "$preserveEnv" with
  | none => simp [stepPreserveEnv, hg]
  | some v =>
    simp only [stepPreserveEnv, hg, spawnOn]
    rw [getKey_setKey_ne _ _ _ _ (by decide)]

theorem stepWait_spawnOn (q : ExecState × JSMap) :
    spawnOn (stepWait q).1 = spawnOn q.1 := by
  obtain ⟨st, m⟩ := q
  cases hg : getKey m "$wait" with
  | none => simp [stepWait, hg]
  | some v =>
    simp only [stepWait, hg, spawnOn]
    rw [getKey_setKey_ne _ _ _ _ (by decide)]

theorem stepFlags_spawnOn (q : ExecState × JSMap) :
    spawnOn (stepFlags q).1 = spawnOn q.1 := by
  obtain ⟨st, m⟩ := q
  simp [stepFlags, spawnOn]

theorem stepSpawn_id (q : ExecState × JSMap) (hg : getKey q.2 "$spawn" = none) :
    stepSpawn q = q := by
  obtain ⟨st, m⟩ := q
  simp only [stepSpawn]
  rw [hg]

theorem stepOptions_spawnOn (q : ExecState × JSMap)
    (hopt : ∀ v, getKey q.2 "$options" = some v →
      (forInEntries v).all (fun p => p.1 != "spawn") = true) :
    spawnOn (stepOptions q).1 = spawnOn q.1 := by
  obtain ⟨st, m⟩ := q
  cases hg : getKey m "$options" with
  | none => simp [stepOptions, hg]
  | some v =>
    simp only [stepOptions, hg, spawnOn]
    rw [getKey_foldl_setKey_ne _ _ _ (hopt v hg)]

theorem stepPassthrough_keep (q : ExecState × JSMap) (h : spawnOn q.1 = true) :
    spawnOn (stepPassthrough q).1 = true := by
  obtain ⟨st, m⟩ := q
  cases hg : getKey m "$passthrough" with
  | none => simpa [stepPassthrough, hg] using h
  | some v =>
    cases hv : truthy v with
    | true =>
      simp only [stepPassthrough, hg, hv, if_true]
      simp [spawnOn, getKey_setKey_self, optTruthy, truthy, primTruthy]
    | false =>
      simp only [stepPassthrough, hg, hv, spawnOn, Bool.false_eq_true, if_false]
      rw [getKey_setKey_ne _ _ _ _ (by decide)]
      exact h

theorem stepPassthrough_sets (q : ExecState × JSMap) (v : JSValue)
    (hg : getKey q.2 "$passthrough" = some v) (hv : truthy v = true) :
    spawnOn (stepPassthrough q).1 = true := by
  obtain ⟨st, m⟩ := q
  have hg2 : getKey m "$passthrough" = some v := hg
  simp only [stepPassthrough, hg2, hv, if_true]
  simp [spawnOn, getKey_setKey_self, optTruthy, truthy, primTruthy]

theorem stepNullOnError_getKey (q : ExecState × JSMap) (k : String) (hk : k ≠ "$nullOnError") :
    getKey (stepNullOnError q).2 k = getKey q.2 k := by
  obtain ⟨st, m⟩ := q
  cases hg : getKey m "$nullOnError" with
  | none => simp [stepNullOnError, hg]
  | some v => simp [stepNullOnError, hg, getKey_deleteKey_ne _ _ _ hk]

theorem stepSpawn_getKey (q : ExecState × JSMap) (k : String) (hk : k ≠ "$spawn") :
    getKey (stepSpawn q).2 k = getKey q.2 k := by
  obtain ⟨st, m⟩ := q
  cases hg : getKey m "$spawn" with
  | none => simp [stepSpawn, hg]
  | some v => simp [stepSpawn, hg, getKey_deleteKey_ne _ _ _ hk]

theorem stepShell_getKey (q : ExecState × JSMap) (k : String) (hk : k ≠ "$shell") :
    getKey (stepShell q).2 k = getKey q.2 k := by
  obtain ⟨st, m⟩ := q
  cases hg : getKey m "$shell" with
  | none => simp [stepShell, hg]
  | some v => simp [stepShell, hg, getKey_deleteKey_ne _ _ _ hk]

theorem stepEnv_getKey (q : ExecState × JSMap) (k : String) (hk : k ≠ "$env") :
    getKey (stepEnv q).2 k = getKey q.2 k := by
  obtain ⟨st, m⟩ := q
  cases hg : getKey m "$env" with
  | none => simp [stepEnv, hg]
  | some v => simp [stepEnv, hg, getKey_deleteKey_ne _ _ _ hk]

theorem stepPreserveEnv_getKey (q : ExecState × JSMap) (k : String) (hk : k ≠ "$preserveEnv") :
    getKey (stepPreserveEnv q).2 k = getKey q.2 k := by
  obtain ⟨st, m⟩ := q
  cases hg : getKey m "$preserveEnv" with
  | none => simp [stepPreserveEnv, hg]
  | some v => simp [stepPreserveEnv, hg, getKey_deleteKey_ne _ _ _ hk]

theorem stepOptions_residual (q : ExecState × JSMap) : (stepOptions q).2 = q.2 := by
  obtain ⟨st, m⟩ := q
  cases hg : getKey m "$options" with
  | none => simp [stepOptions, hg]
  | some v => simp [stepOptions, hg]

theorem processObject_preserves_spawn (st : ExecState) (m : JSMap)
    (hm : mapNoSpawn m = true) (h : spawnOn st = true) :
    spawnOn (processObject st m).1 = true := by
  simp only [mapNoSpawn, Bool.and_eq_true] at hm
  obtain ⟨hm1, hm2⟩ := hm
  have hspn : getKey m "$spawn" = none := by
    cases hg : getKey m "$spawn" with
    | none => rfl
    | some v => simp [hasKey, hg] at hm1
  have hopt : ∀ v, getKey m "$options" = some v →
      (forInEntries v).all (fun p => p.1 != "spawn") = true := by
    intro v hv
    rw [hv] at hm2
    exact hm2
  unfold processObject
  rw [stepFlags_spawnOn, stepWait_spawnOn]
  apply stepPassthrough_keep
  rw [stepOptions_spawnOn]
  · rw [stepPreserveEnv_spawnOn, stepEnv_spawnOn, stepShell_spawnOn]
    rw [stepSpawn_id]
    · rw [stepNullOnError_spawnOn]
      exact h
    · rw [stepNullOnError_getKey _ _ (by decide)]
      exact hspn
  · intro v hv
    apply hopt
    rw [← hv, stepPreserveEnv_getKey _ _ (by decide), stepEnv_getKey _ _ (by decide),
        stepShell_getKey _ _ (by decide), stepSpawn_getKey _ _ (by decide),
        stepNullOnError_getKey _ _ (by decide)]

theorem processObject_forces_spawn (st : ExecState) (m : JSMap) (v : JSValue)
    (hg : getKey m "$passthrough" = some v) (hv : truthy v = true) :
    spawnOn (processObject st m).1 = true := by
  unfold processObject
  rw [stepFlags_spawnOn, stepWait_spawnOn]
  apply stepPassthrough_sets _ v _ hv
  rw [stepOptions_residual, stepPreserveEnv_getKey _ _ (by decide),
      stepEnv_getKey _ _ (by decide), stepShell_getKey _ _ (by decide),
      stepSpawn_getKey _ _ (by decide), stepNullOnError_getKey _ _ (by decide)]
  exact hg

theorem marshalLoop_preserves_spawn (post : List JSArg) (st : ExecState)
    (hsc : allScannable post = true) (hns : post.all noSpawnArg = true)
    (h : spawnOn st = true) :
    ∃ st2, marshalLoop post st = .ok st2 ∧ spawnOn st2 = true := by
  induction post generalizing st with
  | nil => exact ⟨st, rfl, h⟩
  | cons a rest ih =>
    simp only [allScannable, List.all_cons, Bool.and_eq_true] at hsc hns
    cases a with
    | prim p =>
      cases p with
      | str s =>
        have hs : (s != "") = true := hsc.1
        by_cases hc : commandSet st.command = true
        · have hr := ih { st with commandArgs := st.commandArgs ++ [JSValue.prim (.str s)] }
            hsc.2 hns.2 h
          simpa [marshalLoop, argTruthy, primTruthy, hs, hc] using hr
        · simp only [Bool.not_eq_true] at hc
          have hr := ih { st with command := some s } hsc.2 hns.2 h
          simpa [marshalLoop, argTruthy, primTruthy, hs, hc] using hr
      | num n =>
        have hn : (n != 0) = true := hsc.1
        have hr := ih { st with commandArgs := st.commandArgs ++ [JSValue.prim (.str (toString n))] }
          hsc.2 hns.2 h
        simpa [marshalLoop, argTruthy, primTruthy, hn] using hr
      | bool b => simp [scannableArg] at hsc
      | null => simp [scannableArg] at hsc
      | undefined => simp [scannableArg] at hsc
    | obj mo =>
      have hpres := processObject_preserves_spawn st mo hns.1 h
      have hr := ih (processObject st mo).1 hsc.2 hns.2 hpres
      simpa [marshalLoop, argTruthy] using hr

/-- C6 counterexample: `exec(0, {$passthrough: true})` never reaches the
pass-through map (the scan stops at the falsy `0`) and uses the direct
strategy, and `exec({$passthrough: true}, {$options: {spawn: false}})`
has its spawn flag cleared again by the later `$options` payload — in
both cases a map sets `$passthrough` truthy yet spawn is not used. -/
theorem hab_c6_counterexample :
    ((marshal [JSArg.prim (.num 0), JSArg.obj [("$passthrough", JSValue.prim (.bool true))]]).map
        (fun st => chooseStrategy st.execOptions) = .ok .direct)
    ∧ ¬ ((marshal [JSArg.prim (.num 0),
          JSArg.obj [("$passthrough", JSValue.prim (.bool true))]]).map
        (fun st => chooseStrategy st.execOptions) = .ok .spawn)
    ∧ ((marshal [JSArg.obj [("$passthrough", JSValue.prim (.bool true))],
          JSArg.obj [("$options", JSValue.obj1 [("spawn", .bool false)])]]).map
        (fun st => chooseStrategy st.execOptions) = .ok .direct)
    ∧ ¬ ((marshal [JSArg.obj [("$passthrough", JSValue.prim (.bool true))],
          JSArg.obj [("$options", JSValue.obj1 [("spawn", .bool false)])]]).map
        (fun st => chooseStrategy st.execOptions) = .ok .spawn) := by
  decide

/-- C6 (amended): when every argument is truthy, some option map sets
`$passthrough` to a truthy value, and no later argument can clear the
spawn flag (no `$spawn` key and no `$options` payload with a `spawn`
entry after that map), `exec` uses the spawn strategy even though no
`$spawn` directive was supplied. -/
theorem hab_c6_amended (pre post : List JSArg) (mp : JSMap) (v : JSValue)
    (hpre : allScannable pre = true) (hpost : allScannable post = true)
    (hns : post.all noSpawnArg = true)
    (hpass : getKey mp "$passthrough" = some v) (hv : truthy v = true) :
    ∃ st, marshal (pre ++ JSArg.obj mp :: post) = .ok st
      ∧ chooseStrategy st.execOptions = .spawn := by
  obtain ⟨st1, h1, h2⟩ := marshalLoop_append pre (JSArg.obj mp :: post) initExecState hpre
  have hforce := processObject_forces_spawn st1 mp v hpass hv
  obtain ⟨st2, h3, h4⟩ := marshalLoop_preserves_spawn post (processObject st1 mp).1 hpost hns hforce
  refine ⟨st2, ?_, ?_⟩
  · rw [show marshal (pre ++ JSArg.obj mp :: post)
        = marshalLoop (pre ++ JSArg.obj mp :: post) initExecState from rfl, h2]
    simpa [marshalLoop, argTruthy] using h3
  · have h5 : optTruthy (getKey st2.execOptions "spawn") = true := h4
    simp [chooseStrategy, h5]

/-- C6 witness: `exec({$passthrough: true})` selects the spawn
strategy. -/
theorem hab_c6_witness :
    ∃ st, marshal [JSArg.obj [("$passthrough", JSValue.prim (.bool true))]] = .ok st
      ∧ chooseStrategy st.execOptions = .spawn :=
  hab_c6_amended [] [] [("$passthrough", JSValue.prim (.bool true))] (JSValue.prim (.bool true))
    (by decide) (by decide) (by decide) (by decide) (by decide)

theorem stepNullOnError_residual (q : ExecState × JSMap) :
    (stepNullOnError q).2 = deleteKey q.2 "$nullOnError" := by
  obtain ⟨st, m⟩ := q
  cases hg : getKey m "$nullOnError" with
  | none => simp [stepNullOnError, hg, deleteKey_eq_self m _ hg]
  | some v => simp [stepNullOnError, hg]

theorem stepSpawn_residual (q : ExecState × JSMap) :
    (stepSpawn q).2 = deleteKey q.2 "$spawn" := by
  obtain ⟨st, m⟩ := q
  cases hg : getKey m "$spawn" with
  | none => simp [stepSpawn, hg, deleteKey_eq_self m _ hg]
  | some v => simp [stepSpawn, hg]

theorem stepShell_residual (q : ExecState × JSMap) :
    (stepShell q).2 = deleteKey q.2 "$shell" := by
  obtain ⟨st, m⟩ := q
  cases hg : getKey m "$shell" with
  | none => simp [stepShell, hg, deleteKey_eq_self m _ hg]
  | some v => simp [stepShell, hg]

theorem stepEnv_residual (q : ExecState × JSMap) :
    (stepEnv q).2 = deleteKey q.2 "$env" := by
  obtain ⟨st, m⟩ := q
  cases hg : getKey m "$env" with
  | none => simp [stepEnv, hg, deleteKey_eq_self m _ hg]
  | some v => simp [stepEnv, hg]

theorem stepPreserveEnv_residual (q : ExecState × JSMap) :
    (stepPreserveEnv q).2 = deleteKey q.2 "$preserveEnv" := by
  obtain ⟨st, m⟩ := q
  cases hg : getKey m "$preserveEnv" with
  | none => simp [stepPreserveEnv, hg, deleteKey_eq_self m _ hg]
  | some v => simp [stepPreserveEnv, hg]

theorem stepPassthrough_residual (q : ExecState × JSMap) :
    (stepPassthrough q).2 = deleteKey q.2 "$passthrough" := by
  obtain ⟨st, m⟩ := q
  cases hg : getKey m "$passthrough" with
  | none => simp [stepPassthrough, hg, deleteKey_eq_self m _ hg]
  | some v => simp [stepPassthrough, hg]

theorem stepWait_residual (q : ExecState × JSMap) :
    (stepWait q).2 = deleteKey q.2 "$wait" := by
  obtain ⟨st, m⟩ := q
  cases hg : getKey m "$wait" with
  | none => simp [stepWait, hg, deleteKey_eq_self m _ hg]
  | some v => simp [stepWait, hg]

theorem stepFlags_residual (q : ExecState × JSMap) : (stepFlags q).2 = q.2 := by
  obtain ⟨st, m⟩ := q
  simp [stepFlags]

theorem deleteKey_eq_filter (m : JSMap) (k : String) :
    deleteKey m k = m.filter (fun p => p.1 != k) := by
  induction m with
  | nil => rfl
  | cons p rest ih =>
    by_cases hp : p.1 = k <;> simp [deleteKey, List.filter_cons, hp, ih, bne]

theorem foldl_deleteKey_eq_filter (ks : List String) (m : JSMap) :
    ks.foldl deleteKey m = m.filter (fun p => !(ks.contains p.1)) := by
  induction ks generalizing m with
  | nil => simp
  | cons k ks ih =>
    simp only [List.foldl_cons]
    rw [ih, deleteKey_eq_filter, List.filter_filter]
    apply List.filter_congr
    intro x hx
    simp only [List.contains_cons, Bool.not_or, bne]
    exact Bool.and_comm _ _

theorem processObject_residual (st : ExecState) (m : JSMap) :
    (processObject st m).2 = m.filter (fun p => !(deletedDirectiveKeys.contains p.1)) := by
  have hchain : (processObject st m).2 = deletedDirectiveKeys.foldl deleteKey m := by
    unfold processObject
    rw [stepFlags_residual, stepWait_residual, stepPassthrough_residual, stepOptions_residual,
        stepPreserveEnv_residual, stepEnv_residual, stepShell_residual, stepSpawn_residual,
        stepNullOnError_residual]
    simp only [deletedDirectiveKeys, List.foldl_cons, List.foldl_nil]
  rw [hchain, foldl_deleteKey_eq_filter]

theorem hasKey_filter_of_true (m : JSMap) (q : String × JSValue → Bool) (k : String)
    (hq : ∀ v, q (k, v) = true) : hasKey (m.filter q) k = hasKey m k := by
  induction m with
  | nil => rfl
  | cons p rest ih =>
    by_cases hp : p.1 = k
    · have hq2 : q p = true := by
        rw [show p = (k, p.2) from by rw [← hp]]
        exact hq p.2
      simp [List.filter_cons, hq2, hasKey, getKey, hp]
    · cases hq2 : q p with
      | true =>
        simp [List.filter_cons, hq2, hasKey, getKey, hp]
        exact ih
      | false =>
        simp [List.filter_cons, hq2, hasKey, getKey, hp]
        exact ih

/-- C10 (confirmed): processing an option map leaves the caller's own
object equal to the original with exactly the seven deleted directive
keys (`$nullOnError`, `$spawn`, `$shell`, `$env`, `$preserveEnv`,
`$passthrough`, `$wait`) removed, while `$options`, though consumed, is
still present afterwards exactly when it was present before. -/
theorem hab_c10_map_mutation (st : ExecState) (m : JSMap) :
    (processObject st m).2 = m.filter (fun p => !(deletedDirectiveKeys.contains p.1))
    ∧ hasKey (processObject st m).2 "$options" = hasKey m "$options" := by
  refine ⟨processObject_residual st m, ?_⟩
  rw [processObject_residual st m]
  exact hasKey_filter_of_true m (fun p => !(deletedDirectiveKeys.contains p.1)) "$options"
    (fun v => by
      show (!(deletedDirectiveKeys.contains "$options")) = true
      decide)

theorem captureOutput_fields (h : SpawnHandle) (input : Option String) :
    ((captureOutput h input).1 = h.capturePromise.getD h.nextPromiseId)
    ∧ ((captureOutput h input).2.capturePromise =
        some (h.capturePromise.getD h.nextPromiseId))
    ∧ ((captureOutput h input).2.nextPromiseId =
        match h.capturePromise with
        | some _ => h.nextPromiseId
        | none => h.nextPromiseId + 1) := by
  cases hc : h.capturePromise <;> cases input <;>
    simp only [captureOutput, hc] <;>
    (try split) <;> simp [hc]

/-- C7 (confirmed): on a handle fresh from the spawn strategy, a second
`captureOutput` call — whether or not the exit event arrived in between —
returns the identical promise as the first call, and does not allocate a
new capture (the memoization field and the allocation counter are
unchanged). -/
theorem hab_c7_capture_memoized (i1 i2 : Option String) (code : Int) :
    ((captureOutput (captureOutput initSpawnHandle i1).2 i2).1
        = (captureOutput initSpawnHandle i1).1)
    ∧ ((captureOutput (recordExit (captureOutput initSpawnHandle i1).2 code) i2).1
        = (captureOutput initSpawnHandle i1).1)
    ∧ ((captureOutput (captureOutput initSpawnHandle i1).2 i2).2.capturePromise
        = (captureOutput initSpawnHandle i1).2.capturePromise)
    ∧ ((captureOutput (captureOutput initSpawnHandle i1).2 i2).2.nextPromiseId
        = (captureOutput initSpawnHandle i1).2.nextPromiseId) := by
  have f1 := captureOutput_fields initSpawnHandle i1
  have f2 := captureOutput_fields (captureOutput initSpawnHandle i1).2 i2
  have f3 := captureOutput_fields (recordExit (captureOutput initSpawnHandle i1).2 code) i2
  refine ⟨?_, ?_, ?_, ?_⟩
  · rw [f2.1, f1.2.1, f1.1]
    simp [initSpawnHandle]
  · rw [f3.1, show (recordExit (captureOutput initSpawnHandle i1).2 code).capturePromise
        = (captureOutput initSpawnHandle i1).2.capturePromise from rfl, f1.2.1, f1.1]
    simp [initSpawnHandle]
  · rw [f2.2.1, f1.2.1]
    simp
  · rw [f2.2.2, f1.2.1]

theorem parseVersionOutput_nonempty (out v b : String)
    (h : parseVersionOutput out = some (v, b)) : (v != "") = true := by
  unfold parseVersionOutput at h
  split at h
  · split at h
    · split at h
      · simp only [Option.some_inj, Prod.mk.injEq] at h
        next hcond =>
          obtain ⟨h1, -⟩ := h
          simp only [Bool.and_eq_true] at hcond
          rw [← h1]
          exact hcond.1.1
      · exact absurd h (by simp)
    · exact absurd h (by simp)
  · exact absurd h (by simp)

/-- C8 (confirmed): `getVersion` marshals `{version: true}` into the
single flag `--version`; on a fresh cache a parsable `hab
<version>/<build>` output caches and returns the version, while a parse
failure or an execution failure caches the `false` sentinel and returns
`null`; once the sentinel is cached every later call returns `null`
without querying the binary again. -/
theorem hab_c8_version (out v b : String) (res : Except Unit String) (bf : VersionField) :
    (execArgv [JSArg.obj [("version", JSValue.prim (.bool true))]] =
      .ok [JSValue.prim (.str "--version")])
    ∧ (parseVersionOutput out = some (v, b) →
        getVersionStep ⟨.vnull, .vnull⟩ (.ok out) = (⟨.vstr v, .vstr b⟩, some v, true))
    ∧ (parseVersionOutput out = none →
        getVersionStep ⟨.vnull, .vnull⟩ (.ok out) = (⟨.vfalse, .vnull⟩, none, true))
    ∧ (getVersionStep ⟨.vnull, .vnull⟩ (.error ()) = (⟨.vfalse, .vnull⟩, none, true))
    ∧ (getVersionStep ⟨.vfalse, bf⟩ res = (⟨.vfalse, bf⟩, none, false)) := by
  refine ⟨by decide, ?_, ?_, rfl, rfl⟩
  · intro hp
    simp [getVersionStep, hp, parseVersionOutput_nonempty out v b hp]
  · intro hp
    simp [getVersionStep, hp]

/-- C8 witness: the scenario output `hab 1.6.1234/20230101000000` caches
version and build, and a sentinel-state call ignores a fresh healthy
output. -/
theorem hab_c8_witness :
    getVersionStep ⟨.vnull, .vnull⟩ (.ok "hab 1.6.1234/20230101000000") =
      (⟨.vstr "1.6.1234", .vstr "20230101000000"⟩, some "1.6.1234", true)
    ∧ getVersionStep ⟨.vfalse, .vnull⟩ (.ok "hab 1.0/1") = (⟨.vfalse, .vnull⟩, none, false) :=
  ⟨(hab_c8_version "hab 1.6.1234/20230101000000" "1.6.1234" "20230101000000"
      (.error ()) .vnull).2.1 (by decide),
   (hab_c8_version "" "" "" (.ok "hab 1.0/1") .vnull).2.2.2.2⟩

theorem statusLoop_spec (cols : List String) (acc : List (List (String × Option String)))
    (lines : List String) :
    statusLoop (some cols) acc lines =
      acc ++ lines.map (fun line => underscoreObject cols (splitWsRun line)) := by
  induction lines generalizing acc with
  | nil => simp [statusLoop]
  | cons l rest ih => simp [statusLoop, ih]

/-- C9 (confirmed): `getSupervisorStatus` returns `false` when the
invocation fails; returns `[]` when the output is a single line (only a
header, or empty); otherwise splits the first line into column headers on
whitespace runs of length at least two and zips every later line against
them into one record per service — as in the spec scenario where header
`NAME  VERSION` and row `core/foo  1.2.3` give one record.  The query is
marshalled from `('svc', 'status')` as the vector `['svc', 'status']`. -/
theorem hab_c9_status (out hd : String) (tl : List String) :
    (getSupervisorStatus (.error ()) = .failed)
    ∧ ((splitChar '\n' out).length = 1 → getSupervisorStatus (.ok out) = .services [])
    ∧ (splitChar '\n' out = hd :: tl → tl ≠ [] →
        getSupervisorStatus (.ok out) =
          .services (tl.map (fun line => underscoreObject (splitWsRun hd) (splitWsRun line))))
    ∧ (getSupervisorStatus (.ok "NAME  VERSION\ncore/foo  1.2.3") =
        .services [[("NAME", some "core/foo"), ("VERSION", some "1.2.3")]])
    ∧ (getSupervisorStatus (.ok "NAME  VERSION") = .services [])
    ∧ (getSupervisorStatus (.ok "") = .services [])
    ∧ (execArgv [JSArg.prim (.str "svc"), JSArg.prim (.str "status")] =
        .ok [JSValue.prim (.str "svc"), JSValue.prim (.str "status")]) := by
  refine ⟨rfl, ?_, ?_, by decide, by decide, by decide, by decide⟩
  · intro h
    simp [getSupervisorStatus, h]
  · intro h hne
    have hlen : ((splitChar '\n' out).length == 1) = false := by
      rw [h]
      cases tl with
      | nil => exact absurd rfl hne
      | cons a r => simp
    simp only [getSupervisorStatus, hlen, Bool.false_eq_true, if_false, h]
    rw [show statusLoop none [] (hd :: tl) = statusLoop (some (splitWsRun hd)) [] tl from rfl,
        statusLoop_spec]
    simp

/-- C9 witness: a two-row output is zipped row by row against the header
line. -/
theorem hab_c9_witness :
    getSupervisorStatus (.ok "A  B\nc  d\ne  f") =
      .services (["c  d", "e  f"].map
        (fun line => underscoreObject (splitWsRun "A  B") (splitWsRun line))) :=
  (hab_c9_status "A  B\nc  d\ne  f" "A  B" ["c  d", "e  f"]).2.2.1 (by decide) (by decide)
